import Mathlib

/-
Verification of the PREPL transport client of meinside/telegram-clojure-repl-bot.

The Go sources are shallowly embedded:
  * repl/client.go   — the current PREPL client (Response, sendAndRecvBytes,
    sendAndRecv, RespToString, NewClient, cleanse, Eval/LoadFile/Shutdown);
  * the historical nREPL client (Resp, Resp.HasError).

External effects are modelled as oracles:
  * a ConnOracle gives the outcome of SetReadDeadline, Write and each
    successive conn.Read call;
  * edn.Unmarshal into Response resp. ExceptionValue is an arbitrary
    parse function passed as a parameter (the Go code threads the struct
    value across unmarshal calls, so the parse function receives the
    previous record as well);
  * net.Dial during NewClient is a Bool-valued oracle per poll.
-/

namespace ReplBot

/-! ## Errors and constants (repl/client.go) -/

/-- Go error values observed by the client: io.EOF, a net.Error whose
Timeout() is true, any other error (with its message), and an
edn.Unmarshal parse error. -/
inductive GoErr where
  | eof
  | timeoutErr
  | otherErr (msg : String)
  | parseErr (msg : String)
deriving DecidableEq, Repr

def GoErr.isTimeout : GoErr → Bool
  | .timeoutErr => true
  | _ => false

def replConnectTimeoutSeconds : Nat := 10
def replBootupTimeoutSeconds : Nat := 60
def numBytes : Nat := 10 * 1024
def numRetries : Nat := 10
def timeoutMilliseconds : Nat := 1000

/-! ## String helpers (strings.TrimSpace, bytes.Split) -/

/-- unicode.IsSpace restricted to the Latin-1 range, as used by
strings.TrimSpace in the Go code. -/
def goIsSpace (c : Char) : Bool :=
  c == ' ' || c == '\t' || c == '\n' || c == '\x0b' || c == '\x0c' || c == '\r' ||
    c == '\u0085' || c == '\u00A0'

/-- strings.TrimSpace: drop leading and trailing whitespace. -/
def trimSpace (s : String) : String :=
  String.mk (((s.data.dropWhile goIsSpace).reverse.dropWhile goIsSpace).reverse)

/-- bytes.Split with a single-character separator: n occurrences of the
separator yield n+1 (possibly empty) pieces. -/
def splitOnChar (sep : Char) : List Char → List (List Char)
  | [] => [[]]
  | c :: rest =>
    match splitOnChar sep rest with
    | [] => [[]]
    | g :: gs => if c = sep then [] :: g :: gs else (c :: g) :: gs

/-- bytes.Split(bts, []byte("\n")) on the buffer, as a list of lines. -/
def splitLines (s : String) : List String :=
  (splitOnChar '\n' s.data).map String.mk

/-! ## cleanse (repl/client.go): the edn-compatibility rewriting -/

/-- bytes.ReplaceAll(l, p0 :: ps, "") — remove every non-overlapping
occurrence of the (nonempty) pattern, scanning left to right.  The Nat
argument is recursion fuel; `removeAll` supplies the input length, which
is always sufficient since every step consumes at least one character. -/
def removeAllAux (p0 : Char) (ps : List Char) : Nat → List Char → List Char
  | _, [] => []
  | 0, l => l
  | fuel + 1, c :: rest =>
    if (p0 :: ps).isPrefixOf (c :: rest) then removeAllAux p0 ps fuel (rest.drop ps.length)
    else c :: removeAllAux p0 ps fuel rest

def removeAll (p0 : Char) (ps : List Char) (l : List Char) : List Char :=
  removeAllAux p0 ps l.length l

/-- hexadecimal digit, as in the Go regular expression [0-9a-fA-F]. -/
def goIsHexDigit (c : Char) : Bool :=
  (decide ('0' ≤ c) && decide (c ≤ '9')) || (decide ('a' ≤ c) && decide (c ≤ 'f')) ||
    (decide ('A' ≤ c) && decide (c ≤ 'F'))

/-- reHex.ReplaceAllString(s, `\"$1\"`) for reHex = (0x[0-9a-fA-F]+):
each maximal hex literal 0x... is wrapped in \" escapes.  The Nat
argument is recursion fuel, always called with the input length. -/
def replaceHexAux : Nat → List Char → List Char
  | _, [] => []
  | 0, l => l
  | fuel + 1, c1 :: rest =>
    match rest with
    | [] => [c1]
    | c2 :: rest2 =>
      if c1 == '0' && c2 == 'x' && decide (0 < (rest2.takeWhile goIsHexDigit).length) then
        '\\' :: '"' :: '0' :: 'x' :: (rest2.takeWhile goIsHexDigit) ++
          '\\' :: '"' :: replaceHexAux fuel (rest2.dropWhile goIsHexDigit)
      else c1 :: replaceHexAux fuel (c2 :: rest2)

/-- cleanse (repl/client.go): delete the three strings go-edn cannot
parse, then requote hex literals. -/
def cleanse (s : String) : String :=
  let r1 := removeAll '#' (String.data ":clojure.error") s.data
  let r2 := removeAll '#' (String.data ":clojure.spec.alpha") r1
  let r3 := removeAll '#' (String.data "object") r2
  String.mk (replaceHexAux r3.length r3)

/-! ## Response (repl/client.go) -/

/-- Response is a response from PREPL; edn.Keyword tags are modelled as
their name strings.  Zero value: all fields empty / 0 / false. -/
structure Response where
  Tag : String
  Value : String
  Namespace : String
  Milliseconds : Int
  Form : String
  Exception : Bool
  Message : String
deriving DecidableEq, Repr, Inhabited

/-- ExceptionValue struct for the exception :value of a Response. -/
structure ExceptionValue where
  Cause : String
  Phase : String
deriving DecidableEq, Repr, Inhabited

/-- edn.Unmarshal(line, &r) for r : Response: takes the line and the
current contents of r (the Go code reuses one struct across lines), and
either succeeds with the updated record or fails with an error message. -/
abbrev ParseFn : Type := String → Response → Except String Response

/-- edn.Unmarshal([]byte(r.Value), &exception) for ExceptionValue. -/
abbrev ExcParseFn : Type := String → Except String ExceptionValue

/-! ## The read-retry loop and sendAndRecvBytes (repl/client.go) -/

/-- Outcome of one conn.Read call: either some bytes with a nil error,
or an error. -/
abbrev ReadFn : Type := Nat → Except GoErr String

/-- Outcomes of the connection operations performed by one exchange:
SetReadDeadline, conn.Write, and the successive conn.Read calls. -/
structure ConnOracle where
  deadlineErr : Option GoErr
  writeErr : Option GoErr
  read : ReadFn

/-- The read-retry loop of sendAndRecvBytes: for up to `rem` more
attempts starting at attempt index n, read; on a nil error append the
bytes (when more than zero) to the buffer; on io.EOF or a timeout
continue; on any other error log and break.  Returns the accumulated
buffer and the total number of Read calls performed. -/
def recvLoopAux (read : ReadFn) : Nat → String → Nat → String × Nat
  | n, buf, 0 => (buf, n)
  | n, buf, rem + 1 =>
    match read n with
    | .ok data => recvLoopAux read (n + 1) (if 0 < data.length then buf ++ data else buf) rem
    | .error e =>
      if e ≠ GoErr.eof && e.isTimeout = false then (buf, n + 1)
      else recvLoopAux read (n + 1) buf rem

/-- sendAndRecvBytes (repl/client.go): set the read deadline, write the
request plus a newline, run the read-retry loop for numRetries
attempts, and return (cleanse buffer, nil) when the buffer is nonempty,
else an empty byte slice together with whatever error value the
deadline/write phase left behind. -/
def sendAndRecvBytes (c : ConnOracle) (request : String) : String × Option GoErr :=
  match c.deadlineErr with
  | some e => ("", some e)
  | none =>
    match c.writeErr with
    | some e => ("", some e)
    | none =>
      let res := recvLoopAux c.read 0 "" numRetries
      if 0 < res.1.length then (cleanse res.1, none) else ("", none)

/-! ## sendAndRecv (repl/client.go): decoding the newline-delimited lines -/

/-- One iteration of the decode loop of sendAndRecv, on state
(responses so far, current struct value r, current value of err): skip
the line when it is empty after trimming, otherwise unmarshal into r;
on success append the record, on failure log and continue. -/
def decodeStep (pe : ParseFn) (st : List Response × Response × Option GoErr) (line : String) :
    List Response × Response × Option GoErr :=
  if (trimSpace line).length ≤ 0 then st
  else
    match pe line st.2.1 with
    | .ok r2 => (st.1 ++ [r2], r2, none)
    | .error m => (st.1, st.2.1, some (GoErr.parseErr m))

/-- Direct recursive description of the decode loop: one record per
line that is nonblank after trimming and parses successfully, in
arrival order; blank and malformed lines contribute nothing. -/
def decodeLines (pe : ParseFn) (r : Response) : List String → List Response
  | [] => []
  | line :: rest =>
    if (trimSpace line).length ≤ 0 then decodeLines pe r rest
    else
      match pe line r with
      | .ok r2 => r2 :: decodeLines pe r2 rest
      | .error _ => decodeLines pe r rest

/-- sendAndRecv (repl/client.go): responses is assigned the empty
(initialized) slice before anything else, so the Option is some even on
error paths; the slice is modelled as Option (List Response) with none
standing for Go's nil slice. -/
def sendAndRecv (c : ConnOracle) (pe : ParseFn) (request : String) :
    Option (List Response) × Option GoErr :=
  match sendAndRecvBytes c request with
  | (_, some e) => (some [], some e)
  | (bts, none) =>
    let st := (splitLines bts).foldl (decodeStep pe) ([], default, none)
    (some st.1, st.2.2)

/-! ## RespToString (repl/client.go) -/

/-- Go's %+v rendering of a Response, used in the unhandled-tag warning. -/
def fmtResponse (r : Response) : String :=
  "\x7bTag:" ++ r.Tag ++ " Value:" ++ r.Value ++ " Namespace:" ++ r.Namespace ++
    " Milliseconds:" ++ toString r.Milliseconds ++ " Form:" ++ r.Form ++
    " Exception:" ++ (if r.Exception then "true" else "false") ++
    " Message:" ++ r.Message ++ "\x7d"

/-- The fragment RespToString appends for one record. -/
def renderRecord (pex : ExcParseFn) (r : Response) : String :=
  if r.Exception then
    match pex r.Value with
    | .ok exc => trimSpace exc.Cause
    | .error e =>
      if r.Tag = "ret" then r.Namespace ++ "=> " ++ trimSpace r.Value
      else if r.Tag = "out" ∨ r.Tag = "err" then trimSpace r.Value
      else "failed to unmarshal exception value: " ++ e
  else
    if r.Tag = "ret" then r.Namespace ++ "=> " ++ trimSpace r.Value
    else if r.Tag = "out" ∨ r.Tag = "err" then trimSpace r.Value
    else "unhandled `" ++ r.Tag ++ "` response: " ++ fmtResponse r

/-- RespToString (repl/client.go): one fragment per record, joined by
newlines. -/
def RespToString (pex : ExcParseFn) (responses : List Response) : String :=
  String.intercalate "\n" (responses.map (renderRecord pex))

/-! ## The historical nREPL client: Resp and Resp.HasError -/

/-- Resp is a response from nREPL (the older client of this repository);
status tokens are modelled as strings. -/
structure Resp where
  Ns : String
  Out : String
  Session : String
  Value : String
  Ex : String
  RootEx : String
  Op : String
  Status : List String
  Err : String
deriving DecidableEq, Repr, Inhabited

/-- HasError returns whether there was any nREPL error:
len(r.Status) > 0. -/
def Resp.HasError (r : Resp) : Bool :=
  decide (0 < r.Status.length)

/-! ## Process Supervisor: NewClient (repl/client.go)

net.Dial outcomes are an oracle per poll, separately for the
connect-window polls and the boot-window polls after a launch. -/

/-- How NewClient ended up with (or without) a connection. -/
inductive SupOutcome where
  | existing (i : Nat)
  | afterLaunch (j : Nat)
  | panicked
  | noConnection
deriving DecidableEq, Repr

/-- Observable summary of one NewClient run: how many times the backend
process was launched, how many boot-window dial polls were made, and how
the run ended. -/
structure SupResult where
  launches : Nat
  bootPolls : Nat
  outcome : SupOutcome
deriving DecidableEq, Repr

/-- The inner wait-for-bootup loop of NewClient: poll dial once per
second for up to `rem` more iterations starting at index j; connect on
the first success; panic when the last iteration also fails. -/
def bootLoopAux (dialB : Nat → Bool) : Nat → Nat → SupResult
  | j, rem + 1 =>
    if dialB j then ⟨0, j + 1, .afterLaunch j⟩
    else if j = replBootupTimeoutSeconds - 1 then ⟨0, j + 1, .panicked⟩
    else bootLoopAux dialB (j + 1) rem
  | j, 0 => ⟨0, j, .noConnection⟩

/-- The outer wait-for-PREPL loop of NewClient: poll dial once per
second; connect (and break) on the first success; when the last
iteration fails, launch the backend process once and run the bootup
loop. -/
def connectLoopAux (dialC dialB : Nat → Bool) : Nat → Nat → SupResult
  | i, rem + 1 =>
    if dialC i then ⟨0, 0, .existing i⟩
    else if i = replConnectTimeoutSeconds - 1 then
      let b := bootLoopAux dialB 0 replBootupTimeoutSeconds
      ⟨1, b.bootPolls, b.outcome⟩
    else connectLoopAux dialC dialB (i + 1) rem
  | _, 0 => ⟨0, 0, .noConnection⟩

/-- NewClient (repl/client.go), as its supervisor behaviour: the
connect window has replConnectTimeoutSeconds one-second polls, the boot
window replBootupTimeoutSeconds. -/
def NewClient (dialC dialB : Nat → Bool) : SupResult :=
  connectLoopAux dialC dialB 0 replConnectTimeoutSeconds

/-! ## Concurrency model: Eval / LoadFile / Shutdown on the shared lock

Each public operation of the Client is abstracted to the sequence of
lock-relevant actions it performs on the shared connection; an exchange
(sendAndRecv: the write plus all blocking reads) is bracketed by
beginExch/endExch.  Threads interleave one action at a time; c.Lock()
can only be taken when the mutex is free. -/

inductive ClientOp where
  | evalOp
  | loadFileOp
  | shutdownOp
deriving DecidableEq, Repr

inductive LockAction where
  | lock
  | beginExch
  | endExch
  | closeConn
  | unlock
deriving DecidableEq, Repr

/-- The action sequence of each public operation, read off the source:
Eval and LoadFile are Lock; sendAndRecv; Unlock, Shutdown is Lock;
sendAndRecv; conn.Close; Unlock. -/
def clientProgram : ClientOp → List LockAction
  | .evalOp => [.lock, .beginExch, .endExch, .unlock]
  | .loadFileOp => [.lock, .beginExch, .endExch, .unlock]
  | .shutdownOp => [.lock, .beginExch, .endExch, .closeConn, .unlock]

/-- Pointwise update of the remaining-program map. -/
def updProg (f : Nat → List LockAction) (t : Nat) (v : List LockAction) : Nat → List LockAction :=
  fun u => if u = t then v else f u

/-- A state of the interleaving semantics: who holds the client mutex,
and each thread's remaining actions. -/
structure CState where
  mutex : Option Nat
  progs : Nat → List LockAction

/-- One interleaving step: some thread executes its next action.  Lock
blocks until the mutex is free; every other action is always enabled. -/
inductive CStep : CState → CState → Prop
  | lockStep (s : CState) (t : Nat) (rest : List LockAction) :
      s.progs t = LockAction.lock :: rest → s.mutex = none →
      CStep s ⟨some t, updProg s.progs t rest⟩
  | beginStep (s : CState) (t : Nat) (rest : List LockAction) :
      s.progs t = LockAction.beginExch :: rest →
      CStep s ⟨s.mutex, updProg s.progs t rest⟩
  | endStep (s : CState) (t : Nat) (rest : List LockAction) :
      s.progs t = LockAction.endExch :: rest →
      CStep s ⟨s.mutex, updProg s.progs t rest⟩
  | closeStep (s : CState) (t : Nat) (rest : List LockAction) :
      s.progs t = LockAction.closeConn :: rest →
      CStep s ⟨s.mutex, updProg s.progs t rest⟩
  | unlockStep (s : CState) (t : Nat) (rest : List LockAction) :
      s.progs t = LockAction.unlock :: rest →
      CStep s ⟨none, updProg s.progs t rest⟩

/-- Initially the mutex is free and every thread t is about to run one
full client operation ops t. -/
def initState (ops : Nat → ClientOp) : CState :=
  ⟨none, fun t => clientProgram (ops t)⟩

def Reachable (ops : Nat → ClientOp) (s : CState) : Prop :=
  Relation.ReflTransGen CStep (initState ops) s

/-- Thread t has started its exchange (written the request) and not yet
finished the blocking reads. -/
def InFlight (s : CState) (t : Nat) : Prop :=
  ∃ rest, s.progs t = LockAction.endExch :: rest

/-- All suffixes of the three client programs: every thread's remaining
actions always stay in this set. -/
def progSuffixes : List (List LockAction) :=
  [[.lock, .beginExch, .endExch, .unlock],
   [.beginExch, .endExch, .unlock],
   [.endExch, .unlock],
   [.lock, .beginExch, .endExch, .closeConn, .unlock],
   [.beginExch, .endExch, .closeConn, .unlock],
   [.endExch, .closeConn, .unlock],
   [.closeConn, .unlock],
   [.unlock],
   []]

/-- Inductive invariant: remaining programs are program suffixes, and a
thread strictly between its Lock and its Unlock holds the mutex. -/
def LockInv (s : CState) : Prop :=
  (∀ t, s.progs t ∈ progSuffixes) ∧
    (∀ t, (LockAction.unlock ∈ s.progs t ∧ LockAction.lock ∉ s.progs t) → s.mutex = some t)

/-! ## Specification helpers and concrete fixtures used by the theorems -/

/-- The bytes delivered by the nil-error reads among attempts
n, ..., n+rem-1, concatenated in arrival order. -/
def okConcat (read : ReadFn) : Nat → Nat → String
  | _, 0 => ""
  | n, rem + 1 =>
    (match read n with
     | .ok d => d
     | .error _ => "") ++ okConcat read (n + 1) rem

/-- A read attempt the loop survives: bytes with nil error, a timeout,
or io.EOF. -/
def SoftRead (read : ReadFn) (i : Nat) : Prop :=
  (∃ d, read i = .ok d) ∨ read i = .error GoErr.timeoutErr ∨ read i = .error GoErr.eof

/-- Fixture: first four reads time out, the fifth delivers bytes. -/
def read5C3 : ReadFn :=
  fun n => if n = 4 then .ok "bytes" else .error GoErr.timeoutErr

/-- Fixture: every read times out. -/
def allTimeoutConn : ConnOracle :=
  ⟨none, none, fun _ => .error GoErr.timeoutErr⟩

/-- Fixture: a parse function that always fails. -/
def peFail : ParseFn := fun _ _ => .error "x"

/-- Fixture: the first read fails hard (neither timeout nor EOF), later
reads would deliver bytes. -/
def c4Conn : ConnOracle :=
  ⟨none, none, fun n => if n = 0 then .error (.otherErr "read: connection reset by peer") else .ok "late"⟩

/-- Fixture: one read delivering three newline-delimited lines. -/
def c5Conn : ConnOracle :=
  ⟨none, none, fun n => if n = 0 then .ok "a\nb\nc" else .error GoErr.timeoutErr⟩

def c5r1 : Response := ⟨"out", "one", "", 0, "", false, ""⟩

def c5r3 : Response := ⟨"ret", "three", "user", 0, "", false, ""⟩

/-- Fixture: parses line "a" and line "c", rejects everything else. -/
def c5pe : ParseFn :=
  fun l _ => if l = "a" then .ok c5r1 else if l = "c" then .ok c5r3 else .error "malformed"

/-- Fixture batch for rendering: an out record and a ret record. -/
def c6batch : List Response :=
  [⟨"out", "hello\n", "", 0, "", false, ""⟩, ⟨"ret", "42", "user", 0, "", false, ""⟩]

/-- Fixture: an exception-flagged record with an unrecognized tag. -/
def c7rec : Response := ⟨"weird", "(not edn", "", 0, "", true, ""⟩

/-- Fixture: an ExceptionValue parse function that always fails. -/
def c7pex : ExcParseFn := fun _ => .error "boom"

/-- Fixture threads for the interleaving semantics: everybody runs Eval. -/
def opsW : Nat → ClientOp := fun _ => ClientOp.evalOp

/-- State after thread 0 took the lock. -/
def stateW1 : CState :=
  ⟨some 0, updProg (fun _ => clientProgram ClientOp.evalOp) 0
    [LockAction.beginExch, LockAction.endExch, LockAction.unlock]⟩

/-- State after thread 0 took the lock and wrote its request: its
exchange is in flight. -/
def stateW2 : CState :=
  ⟨some 0, updProg (updProg (fun _ => clientProgram ClientOp.evalOp) 0
    [LockAction.beginExch, LockAction.endExch, LockAction.unlock]) 0
    [LockAction.endExch, LockAction.unlock]⟩

/-! # Theorems -/

/-! ## String helper lemmas -/

lemma str_empty_append (s : String) : "" ++ s = s := by
  cases s with
  | mk data => rfl

lemma str_append_empty (s : String) : s ++ "" = s := by
  cases s with
  | mk data => show String.mk (data ++ []) = String.mk data; rw [List.append_nil]

lemma str_append_assoc (a b c : String) : a ++ b ++ c = a ++ (b ++ c) := by
  cases a with
  | mk da =>
    cases b with
    | mk db =>
      cases c with
      | mk dc => show String.mk (da ++ db ++ dc) = String.mk (da ++ (db ++ dc)); rw [List.append_assoc]

lemma str_eq_empty_of_length_zero {s : String} (h : s.length = 0) : s = "" := by
  cases s with
  | mk data =>
    cases data with
    | nil => rfl
    | cons c cs => simp [String.length] at h

/-! ## The read-retry loop -/

/-- If every attempt in [n, n+rem) is survivable (bytes, timeout or
EOF), the loop performs all of them and the buffer collects exactly the
delivered bytes in arrival order. -/
lemma recvLoopAux_append (read : ReadFn) :
    ∀ (rem n : Nat) (buf : String),
      (∀ i, n ≤ i → i < n + rem → SoftRead read i) →
      recvLoopAux read n buf rem = (buf ++ okConcat read n rem, n + rem) := by
  intro rem
  induction rem with
  | zero => intro n buf _; simp [recvLoopAux, okConcat, str_append_empty]
  | succ m ih =>
    intro n buf hsoft
    have ihx : ∀ buf2 : String,
        recvLoopAux read (n + 1) buf2 m = (buf2 ++ okConcat read (n + 1) m, n + 1 + m) :=
      fun buf2 => ih (n + 1) buf2 (fun i h1 h2 => hsoft i (by omega) (by omega))
    have hn := hsoft n (Nat.le_refl n) (by omega)
    rcases hn with ⟨d, hd⟩ | hto | heof
    · simp only [recvLoopAux, okConcat, hd]
      by_cases hlen : 0 < d.length
      · rw [if_pos hlen, ihx (buf ++ d), str_append_assoc]
        simp only [Prod.mk.injEq]
        exact ⟨trivial, by omega⟩
      · have hde : d = "" := str_eq_empty_of_length_zero (by omega)
        rw [if_neg hlen, ihx buf, hde, str_empty_append]
        simp only [Prod.mk.injEq]
        exact ⟨trivial, by omega⟩
    · simp only [recvLoopAux, okConcat, hto, GoErr.isTimeout]
      rw [if_neg (by simp), ihx buf, str_empty_append]
      simp only [Prod.mk.injEq]
      exact ⟨trivial, by omega⟩
    · simp only [recvLoopAux, okConcat, heof, GoErr.isTimeout]
      rw [if_neg (by simp), ihx buf, str_empty_append]
      simp only [Prod.mk.injEq]
      exact ⟨trivial, by omega⟩

/-- When every attempt in range times out, no bytes accumulate. -/
lemma okConcat_of_timeouts (read : ReadFn) :
    ∀ (rem n : Nat),
      (∀ i, n ≤ i → i < n + rem → read i = .error GoErr.timeoutErr) →
      okConcat read n rem = "" := by
  intro rem
  induction rem with
  | zero => intro n _; rfl
  | succ m ih =>
    intro n h
    rw [okConcat, h n (Nat.le_refl n) (by omega)]
    rw [ih (n + 1) (fun i h1 h2 => h i (by omega) (by omega))]
    rfl

/-- A hard (non-timeout, non-EOF) error at attempt k, preceded only by
survivable attempts, stops the loop right after attempt k. -/
lemma recvLoopAux_abort (read : ReadFn) :
    ∀ (rem n : Nat) (buf : String) (k : Nat) (e : String),
      n ≤ k → k < n + rem → read k = .error (.otherErr e) →
      (∀ i, n ≤ i → i < k → SoftRead read i) →
      (recvLoopAux read n buf rem).2 = k + 1 := by
  intro rem
  induction rem with
  | zero => intro n buf k e h1 h2 _ _; omega
  | succ m ih =>
    intro n buf k e hnk hkr hk hpre
    by_cases hEq : n = k
    · subst hEq
      simp only [recvLoopAux, hk, GoErr.isTimeout]
      rw [if_pos (by simp)]
    · have hs := hpre n (Nat.le_refl n) (by omega)
      rcases hs with ⟨d, hd⟩ | hto | heof
      · simp only [recvLoopAux, hd]
        exact ih (n + 1) _ k e (by omega) (by omega) hk (fun i u v => hpre i (by omega) v)
      · simp only [recvLoopAux, hto, GoErr.isTimeout]
        rw [if_neg (by simp)]
        exact ih (n + 1) _ k e (by omega) (by omega) hk (fun i u v => hpre i (by omega) v)
      · simp only [recvLoopAux, heof, GoErr.isTimeout]
        rw [if_neg (by simp)]
        exact ih (n + 1) _ k e (by omega) (by omega) hk (fun i u v => hpre i (by omega) v)

/-- Whenever the deadline is set and the write goes through, the error
value sendAndRecvBytes returns is nil — whatever happened during the
reads. -/
lemma sendAndRecvBytes_err_none (c : ConnOracle) (request : String)
    (hd : c.deadlineErr = none) (hw : c.writeErr = none) :
    (sendAndRecvBytes c request).2 = none := by
  rw [sendAndRecvBytes, hd, hw]
  by_cases h : 0 < (recvLoopAux c.read 0 "" numRetries).1.length
  · simp only [h, if_true]
  · simp only [h, if_false]

/-- Claim C3: within the attempt budget, every nil-error read's bytes
are appended to the accumulating buffer in arrival order and timeouts
are tolerated (the loop runs its whole budget): with budget N and every
attempt either delivering bytes or timing out, the final buffer is
exactly the concatenation of the delivered bytes and N reads happen. -/
theorem recvLoop_tolerates_timeouts (read : ReadFn) (budget : Nat)
    (h : ∀ i, i < budget → (∃ d, read i = .ok d) ∨ read i = .error GoErr.timeoutErr) :
    recvLoopAux read 0 "" budget = (okConcat read 0 budget, budget) := by
  have := recvLoopAux_append read budget 0 ""
    (fun i h1 h2 => by
      rcases h i (by omega) with hok | hto
      · exact Or.inl hok
      · exact Or.inr (Or.inl hto))
  rw [this, str_empty_append]
  simp

/-- Witness for C3: an N = 5 budget whose first 4 reads time out and
whose 5th read returns "bytes" ends with buffer "bytes" after 5 reads. -/
theorem recvLoop_tolerates_timeouts_witness :
    recvLoopAux read5C3 0 "" 5 = ("bytes", 5) :=
  (recvLoop_tolerates_timeouts read5C3 5 (by
    intro i hi
    interval_cases i <;> simp [read5C3])).trans (by decide)

/-- Claim C1 counterexample: a write that succeeds followed by a read
loop in which every attempt times out makes sendAndRecv return the
empty record set together with a nil error — there is no distinct
"nothing received" error value. -/
theorem sendAndRecv_all_timeouts_cx :
    sendAndRecv allTimeoutConn peFail "(inc 1)" = (some [], none) := by
  rfl

/-- Claim C1 (amended): when the deadline is set and the write succeeds
but every read attempt of the budget times out, sendAndRecv returns the
empty (initialized) record set with a nil error — an empty-success
response, not a distinct error. -/
theorem sendAndRecv_all_timeouts_empty_success (c : ConnOracle) (pe : ParseFn) (request : String)
    (hd : c.deadlineErr = none) (hw : c.writeErr = none)
    (hr : ∀ n, n < numRetries → c.read n = .error GoErr.timeoutErr) :
    sendAndRecv c pe request = (some [], none) := by
  have hloop : recvLoopAux c.read 0 "" numRetries = ("", numRetries) := by
    have h1 := recvLoopAux_append c.read numRetries 0 ""
      (fun i u v => Or.inr (Or.inl (hr i (by omega))))
    have h2 := okConcat_of_timeouts c.read numRetries 0 (fun i u v => hr i (by omega))
    rw [h1, h2, str_append_empty]
    simp
  have hbytes : sendAndRecvBytes c request = ("", none) := by
    rw [sendAndRecvBytes, hd, hw, hloop]
    rfl
  rw [sendAndRecv, hbytes]
  rfl

/-- Witness for the amended C1 at a concrete all-timeout connection. -/
theorem sendAndRecv_all_timeouts_empty_success_witness :
    sendAndRecv allTimeoutConn peFail "(+ 1 2)" = (some [], none) :=
  sendAndRecv_all_timeouts_empty_success allTimeoutConn peFail "(+ 1 2)"
    rfl rfl (fun n _ => rfl)

/-- Claim C4 counterexample: the first read fails with an error that is
neither a timeout nor EOF; the loop does abort after that one attempt,
but the error is not surfaced — the returned error value is nil. -/
theorem recvLoop_hard_error_cx :
    recvLoopAux c4Conn.read 0 "" numRetries = ("", 1) ∧
      (sendAndRecvBytes c4Conn "(inc 1)").2 = none := by
  exact ⟨by decide, by decide⟩

/-- Claim C4 (amended): a read error that is neither a timeout nor EOF
at attempt k (all earlier attempts survivable) aborts the loop right
after attempt k, but the error is only logged, never surfaced: the
error value sendAndRecvBytes returns is still nil. -/
theorem recvLoop_hard_error_aborts_logged_only (c : ConnOracle) (request : String)
    (k : Nat) (e : String)
    (hd : c.deadlineErr = none) (hw : c.writeErr = none)
    (hk : k < numRetries) (hke : c.read k = .error (.otherErr e))
    (hpre : ∀ i, i < k → SoftRead c.read i) :
    (recvLoopAux c.read 0 "" numRetries).2 = k + 1 ∧
      (sendAndRecvBytes c request).2 = none := by
  constructor
  · exact recvLoopAux_abort c.read numRetries 0 "" k e (by omega) (by omega) hke
      (fun i u v => hpre i v)
  · exact sendAndRecvBytes_err_none c request hd hw

/-- Witness for the amended C4 at the concrete hard-failing connection. -/
theorem recvLoop_hard_error_aborts_logged_only_witness :
    (recvLoopAux c4Conn.read 0 "" numRetries).2 = 0 + 1 ∧
      (sendAndRecvBytes c4Conn "(+ 1 2)").2 = none :=
  recvLoop_hard_error_aborts_logged_only c4Conn "(+ 1 2)" 0 "read: connection reset by peer"
    rfl rfl (by decide) rfl (fun i hi => absurd hi (Nat.not_lt_zero i))

/-! ## The decode loop of sendAndRecv -/

/-- The fold the Go decode loop performs produces exactly the records
described by the direct recursion decodeLines, appended after whatever
the accumulator already holds. -/
lemma foldl_decodeStep_fst (pe : ParseFn) :
    ∀ (ls : List String) (acc : List Response) (r : Response) (e : Option GoErr),
      (ls.foldl (decodeStep pe) (acc, r, e)).1 = acc ++ decodeLines pe r ls := by
  intro ls
  induction ls with
  | nil => intro acc r e; simp [decodeLines]
  | cons l rest ih =>
    intro acc r e
    by_cases hb : (trimSpace l).length ≤ 0
    · rw [List.foldl_cons]
      rw [show decodeStep pe (acc, r, e) l = (acc, r, e) from by
        rw [decodeStep, if_pos hb]]
      rw [ih acc r e, decodeLines, if_pos hb]
    · cases hp : pe l r with
      | ok r2 =>
        rw [List.foldl_cons]
        rw [show decodeStep pe (acc, r, e) l = (acc ++ [r2], r2, none) from by
          rw [decodeStep, if_neg hb]; simp [hp]]
        rw [ih (acc ++ [r2]) r2 none, decodeLines, if_neg hb]
        simp [hp]
      | error m =>
        rw [List.foldl_cons]
        rw [show decodeStep pe (acc, r, e) l = (acc, r, some (GoErr.parseErr m)) from by
          rw [decodeStep, if_neg hb]; simp [hp]]
        rw [ih acc r _, decodeLines, if_neg hb]
        simp [hp]

/-- Blank (whitespace-only) lines contribute nothing to the decoded
records: filtering them out first changes nothing. -/
lemma decodeLines_filter_blanks (pe : ParseFn) :
    ∀ (ls : List String) (r : Response),
      decodeLines pe r ls =
        decodeLines pe r (ls.filter (fun s => decide (0 < (trimSpace s).length))) := by
  intro ls
  induction ls with
  | nil => intro r; rfl
  | cons l rest ih =>
    intro r
    by_cases hb : (trimSpace l).length ≤ 0
    · rw [decodeLines, if_pos hb, List.filter_cons]
      rw [if_neg (by simpa using by omega : ¬(decide (0 < (trimSpace l).length) = true))]
      exact ih r
    · rw [decodeLines, if_neg hb, List.filter_cons]
      rw [if_pos (by simpa using by omega : decide (0 < (trimSpace l).length) = true)]
      cases hp : pe l r with
      | ok r2 => rw [decodeLines, if_neg hb]; simp only [hp]; rw [ih r2]
      | error m => rw [decodeLines, if_neg hb]; simp only [hp]; rw [ih r]

/-- On every error path sendAndRecvBytes hands back the empty byte
slice. -/
lemma sendAndRecvBytes_fst_of_err (c : ConnOracle) (request : String) (e : GoErr)
    (h : (sendAndRecvBytes c request).2 = some e) :
    (sendAndRecvBytes c request).1 = "" := by
  rw [sendAndRecvBytes] at h ⊢
  cases hde : c.deadlineErr with
  | some e2 => simp [hde]
  | none =>
    cases hwe : c.writeErr with
    | some e2 => simp [hde, hwe]
    | none =>
      simp only [hde, hwe] at h
      by_cases hl : 0 < (recvLoopAux c.read 0 "" numRetries).1.length
      · simp only [hl, if_true] at h
        exact Option.noConfusion h
      · simp [hde, hwe, hl]

/-- Claim C10: sendAndRecv's record list is always an initialized
(some, never nil) slice; it holds one record per received line that is
nonempty after trimming and parses successfully (that is exactly
decodeLines), and blank or whitespace-only lines never produce a
record (filtering them away changes nothing). -/
theorem sendAndRecv_decode_characterization (c : ConnOracle) (pe : ParseFn) (request : String) :
    ∃ l : List Response,
      (sendAndRecv c pe request).1 = some l ∧
      l = decodeLines pe default (splitLines (sendAndRecvBytes c request).1) ∧
      decodeLines pe default (splitLines (sendAndRecvBytes c request).1) =
        decodeLines pe default
          ((splitLines (sendAndRecvBytes c request).1).filter
            (fun s => decide (0 < (trimSpace s).length))) := by
  rcases hb : sendAndRecvBytes c request with ⟨bts, err⟩
  cases err with
  | some e =>
    refine ⟨[], ?_, ?_, ?_⟩
    · rw [sendAndRecv, hb]
    · have hempty : bts = "" := by
        have := sendAndRecvBytes_fst_of_err c request e (by rw [hb])
        rw [hb] at this
        exact this
      rw [hempty]
      rfl
    · exact decodeLines_filter_blanks pe _ default
  | none =>
    refine ⟨((splitLines bts).foldl (decodeStep pe) ([], default, none)).1, ?_, ?_, ?_⟩
    · rw [sendAndRecv, hb]
    · exact foldl_decodeStep_fst pe (splitLines bts) [] default none
    · exact decodeLines_filter_blanks pe _ default

/-- Claim C5: a malformed line among several newline-delimited lines is
skipped without invalidating the others: when the received buffer
splits into three nonblank lines of which the middle one fails to
parse, the batch holds exactly the two parsed records, in arrival
order. -/
theorem sendAndRecv_skips_malformed_line (c : ConnOracle) (pe : ParseFn) (request : String)
    (bts l1 l2 l3 : String) (v1 v3 : Response) (m : String)
    (hb : sendAndRecvBytes c request = (bts, none))
    (hsplit : splitLines bts = [l1, l2, l3])
    (h1 : ¬(trimSpace l1).length ≤ 0) (h2 : ¬(trimSpace l2).length ≤ 0)
    (h3 : ¬(trimSpace l3).length ≤ 0)
    (p1 : pe l1 default = .ok v1) (p2 : pe l2 v1 = .error m) (p3 : pe l3 v1 = .ok v3) :
    (sendAndRecv c pe request).1 = some [v1, v3] := by
  rw [sendAndRecv, hb]
  have hfold := foldl_decodeStep_fst pe (splitLines bts) [] default none
  rw [hsplit] at hfold
  simp only [hsplit]
  rw [hfold]
  rw [decodeLines, if_neg h1]
  simp only [p1]
  rw [decodeLines, if_neg h2]
  simp only [p2]
  rw [decodeLines, if_neg h3]
  simp only [p3]
  rfl

/-- Witness for C5: three lines "a", "b", "c" in one read, where "b"
does not parse: the batch is the two records of "a" and "c". -/
theorem sendAndRecv_skips_malformed_line_witness :
    (sendAndRecv c5Conn c5pe "(ls)").1 = some [c5r1, c5r3] :=
  sendAndRecv_skips_malformed_line c5Conn c5pe "(ls)" "a\nb\nc" "a" "b" "c" c5r1 c5r3
    "malformed" (by decide) (by decide) (by decide) (by decide) (by decide)
    rfl rfl rfl

/-! ## Rendering -/

/-- Claim C6: for a batch of non-error records with the three handled
tags, RespToString emits per record the tag-specific fragment — the
namespace, "=> " and the whitespace-trimmed value for a ret record, the
whitespace-trimmed raw text for an out or err record — and joins the
fragments in arrival order with newline separators. -/
theorem respToString_joins_trimmed_fragments (pex : ExcParseFn) (rs : List Response)
    (h : ∀ r ∈ rs, r.Exception = false ∧ (r.Tag = "ret" ∨ r.Tag = "out" ∨ r.Tag = "err")) :
    RespToString pex rs =
      String.intercalate "\n"
        (rs.map (fun r =>
          if r.Tag = "ret" then r.Namespace ++ "=> " ++ trimSpace r.Value
          else trimSpace r.Value)) := by
  rw [RespToString]
  congr 1
  apply List.map_congr_left
  intro r hr
  obtain ⟨hexc, htag⟩ := h r hr
  rw [renderRecord, hexc]
  simp only [Bool.false_eq_true, if_false]
  rcases htag with hret | hout | herr
  · rw [if_pos hret, if_pos hret]
  · rw [if_neg (by rw [hout]; decide), if_pos (Or.inl hout), if_neg (by rw [hout]; decide)]
  · rw [if_neg (by rw [herr]; decide), if_pos (Or.inr herr), if_neg (by rw [herr]; decide)]

/-- Witness for C6: an out record "hello\n" followed by a ret record
with namespace "user" and value "42" renders as "hello", a newline, and
"user=> 42". -/
theorem respToString_joins_trimmed_fragments_witness :
    RespToString c7pex c6batch = "hello\nuser=> 42" :=
  (respToString_joins_trimmed_fragments c7pex c6batch (by decide)).trans (by decide)

/-- Claim C7: a record whose exception flag is set but whose value does
not parse as an ExceptionValue falls back to tag-based rendering: the
namespace/value fragment for a ret tag, the raw trimmed text for out or
err tags, and the unmarshal-failure warning string for any other tag;
rendering is a total function, so it never raises. -/
theorem respToString_exception_fallback (pex : ExcParseFn) (r : Response) (m : String)
    (hexc : r.Exception = true) (hp : pex r.Value = .error m) :
    RespToString pex [r] =
      (if r.Tag = "ret" then r.Namespace ++ "=> " ++ trimSpace r.Value
       else if r.Tag = "out" ∨ r.Tag = "err" then trimSpace r.Value
       else "failed to unmarshal exception value: " ++ m) := by
  have hsingle : RespToString pex [r] = renderRecord pex r := by
    rw [RespToString]
    rfl
  rw [hsingle, renderRecord, hexc]
  simp only [if_true, hp]

/-- Witness for C7: an exception-flagged record with an unrecognized
tag and an unparsable value renders as the warning string. -/
theorem respToString_exception_fallback_witness :
    RespToString c7pex [c7rec] = "failed to unmarshal exception value: boom" :=
  (respToString_exception_fallback c7pex c7rec "boom" rfl rfl).trans (by decide)

/-! ## The nREPL client's HasError -/

/-- Claim C9: a response is marked erroneous exactly when its status
token collection is nonempty, and the marking is independent of the
value field: populating Value does not change HasError. -/
theorem hasError_iff_status_nonempty (r : Resp) :
    (r.HasError = true ↔ r.Status ≠ []) ∧
      (∀ v : String, ({ r with Value := v } : Resp).HasError = r.HasError) := by
  constructor
  · rw [Resp.HasError]
    rw [decide_eq_true_iff]
    constructor
    · intro h hnil
      rw [hnil] at h
      simp at h
    · intro h
      cases hs : r.Status with
      | nil => exact absurd hs h
      | cons a tl => simp only [List.length_cons]; omega
  · intro v
    rfl

/-! ## The Process Supervisor -/

/-- The bootup loop with fuel left always makes at least one further
dial poll. -/
lemma bootLoopAux_polls_progress (dialB : Nat → Bool) :
    ∀ (rem j : Nat), 0 < rem → j < (bootLoopAux dialB j rem).bootPolls := by
  intro rem
  induction rem with
  | zero => intro j h; omega
  | succ m ih =>
    intro j _
    rw [bootLoopAux]
    by_cases hdj : dialB j
    · rw [if_pos hdj]
      exact Nat.lt_succ_self j
    · rw [if_neg hdj]
      by_cases hlast : j = replBootupTimeoutSeconds - 1
      · rw [if_pos hlast]
        exact Nat.lt_succ_self j
      · rw [if_neg hlast]
        cases m with
        | zero => rw [bootLoopAux]; exact Nat.lt_succ_self j
        | succ m2 =>
          have := ih (j + 1) (by omega)
          omega

/-- If some dial in the remaining connect polls succeeds, the loop
connects to the existing backend and never launches. -/
lemma connectLoopAux_launches_zero (dialC dialB : Nat → Bool) :
    ∀ (rem i : Nat), i + rem = replConnectTimeoutSeconds →
      (∃ k, i ≤ k ∧ k < replConnectTimeoutSeconds ∧ dialC k = true) →
      (connectLoopAux dialC dialB i rem).launches = 0 := by
  intro rem
  induction rem with
  | zero => intro i hfuel ⟨k, h1, h2, _⟩; omega
  | succ m ih =>
    intro i hfuel ⟨k, h1, h2, hk⟩
    rw [connectLoopAux]
    by_cases hdi : dialC i
    · rw [if_pos hdi]
    · rw [if_neg hdi]
      have hne : k ≠ i := fun he => hdi (he ▸ hk)
      by_cases hlast : i = replConnectTimeoutSeconds - 1
      · exfalso
        have h10 : replConnectTimeoutSeconds = 10 := rfl
        rw [h10] at hfuel h2 hlast
        omega
      · rw [if_neg hlast]
        exact ih (i + 1) (by omega) ⟨k, by omega, h2, hk⟩

/-- If every dial of the remaining connect polls fails, the loop
reaches the last poll and launches, handing over to the bootup loop. -/
lemma connectLoopAux_all_fail (dialC dialB : Nat → Bool) :
    ∀ (rem i : Nat), i + rem = replConnectTimeoutSeconds → 0 < rem →
      (∀ k, k < replConnectTimeoutSeconds → dialC k = false) →
      connectLoopAux dialC dialB i rem =
        ⟨1, (bootLoopAux dialB 0 replBootupTimeoutSeconds).bootPolls,
          (bootLoopAux dialB 0 replBootupTimeoutSeconds).outcome⟩ := by
  intro rem
  induction rem with
  | zero => intro i _ h; omega
  | succ m ih =>
    intro i hfuel _ hall
    rw [connectLoopAux]
    rw [if_neg (by rw [hall i (by omega)]; exact Bool.false_ne_true)]
    by_cases hlast : i = replConnectTimeoutSeconds - 1
    · rw [if_pos hlast]
    · rw [if_neg hlast]
      exact ih (i + 1) (by omega)
        (by
          have h10 : replConnectTimeoutSeconds = 10 := rfl
          rw [h10] at hfuel hlast
          omega) hall

/-- Claim C8: if any dial succeeds during the connect window, NewClient
performs no process launch; if every dial of the connect window fails,
exactly one launch happens, followed by at least one boot-window dial
poll. -/
theorem newClient_launch_policy (dialC dialB : Nat → Bool) :
    ((∃ i, i < replConnectTimeoutSeconds ∧ dialC i = true) →
       (NewClient dialC dialB).launches = 0) ∧
    ((∀ i, i < replConnectTimeoutSeconds → dialC i = false) →
       (NewClient dialC dialB).launches = 1 ∧ 0 < (NewClient dialC dialB).bootPolls) := by
  constructor
  · intro ⟨i, hi, hdi⟩
    exact connectLoopAux_launches_zero dialC dialB replConnectTimeoutSeconds 0 rfl
      ⟨i, Nat.zero_le i, hi, hdi⟩
  · intro hall
    have heq := connectLoopAux_all_fail dialC dialB replConnectTimeoutSeconds 0 rfl
      (by decide) hall
    rw [NewClient, heq]
    refine ⟨rfl, ?_⟩
    have := bootLoopAux_polls_progress dialB replBootupTimeoutSeconds 0 (by decide)
    simpa using this

/-- Witness for C8: a backend reachable at the fourth poll is used with
no launch; an unreachable backend for the whole connect window causes
exactly one launch and boot polling. -/
theorem newClient_launch_policy_witness :
    (NewClient (fun i => decide (i = 3)) (fun _ => true)).launches = 0 ∧
      (NewClient (fun _ => false) (fun _ => true)).launches = 1 ∧
      0 < (NewClient (fun _ => false) (fun _ => true)).bootPolls :=
  ⟨(newClient_launch_policy (fun i => decide (i = 3)) (fun _ => true)).1
      ⟨3, by decide, by decide⟩,
   (newClient_launch_policy (fun _ => false) (fun _ => true)).2 (fun i _ => rfl)⟩

/-! ## Serialization of exchanges on the shared connection -/

/-- Stepping a thread keeps its remaining actions a program suffix. -/
lemma mem_progSuffixes_tail {a : LockAction} {l : List LockAction}
    (h : a :: l ∈ progSuffixes) : l ∈ progSuffixes := by
  simp only [progSuffixes, List.mem_cons, List.not_mem_nil, or_false] at h
  rcases h with h | h | h | h | h | h | h | h | h <;>
    first
      | (injection h with h1 h2; subst h2; decide)
      | (exact absurd h (by simp))

/-- The only program suffix starting with unlock is the final [unlock]. -/
lemma unlock_head_suffix {rest : List LockAction}
    (h : LockAction.unlock :: rest ∈ progSuffixes) : rest = [] := by
  simp only [progSuffixes, List.mem_cons, List.not_mem_nil, or_false] at h
  rcases h with h | h | h | h | h | h | h | h | h <;>
    first
      | (rw [List.cons.injEq] at h; exact h.2)
      | (rw [List.cons.injEq] at h; exact absurd h.1 (by decide))
      | (exact absurd h (by simp))

/-- A thread whose exchange is in flight is strictly between its Lock
and its Unlock. -/
lemma inFlight_needsLock {s : CState} {t : Nat} (hwf : s.progs t ∈ progSuffixes)
    (hf : InFlight s t) :
    LockAction.unlock ∈ s.progs t ∧ LockAction.lock ∉ s.progs t := by
  obtain ⟨rest, hr⟩ := hf
  rw [hr] at hwf ⊢
  simp only [progSuffixes, List.mem_cons, List.not_mem_nil, or_false] at hwf
  rcases hwf with h | h | h | h | h | h | h | h | h <;>
    first
      | (rw [h]; decide)
      | (injection h with h1 h2; exact absurd h1 (by decide))
      | (exact absurd h (by simp))

/-- Preservation of the lock invariant across the non-lock, non-unlock
step of a thread. -/
lemma lockInv_mid {s : CState} {t : Nat} {a : LockAction} {rest : List LockAction}
    (ha : a ≠ LockAction.lock)
    (hp : s.progs t = a :: rest) (hinv : LockInv s) :
    LockInv ⟨s.mutex, updProg s.progs t rest⟩ := by
  obtain ⟨hwf, hlk⟩ := hinv
  refine ⟨?_, ?_⟩
  · intro u
    by_cases hu : u = t
    · subst hu
      simp only [updProg, if_pos rfl]
      have h2 := hwf u
      rw [hp] at h2
      exact mem_progSuffixes_tail h2
    · simp only [updProg, if_neg hu]
      exact hwf u
  · intro u hneed
    by_cases hu : u = t
    · subst hu
      simp only [updProg, if_pos rfl] at hneed
      apply hlk u
      rw [hp]
      refine ⟨List.mem_cons_of_mem a hneed.1, ?_⟩
      intro hmem
      rcases List.mem_cons.mp hmem with h1 | h1
      · exact ha h1.symm
      · exact hneed.2 h1
    · simp only [updProg, if_neg hu] at hneed
      exact hlk u hneed

/-- The lock invariant is preserved by every interleaving step. -/
lemma lockInv_step {s s' : CState} (hst : CStep s s') (hinv : LockInv s) : LockInv s' := by
  cases hst with
  | lockStep t rest hp hm =>
    obtain ⟨hwf, hlk⟩ := hinv
    refine ⟨?_, ?_⟩
    · intro u
      by_cases hu : u = t
      · subst hu
        simp only [updProg, if_pos rfl]
        have h2 := hwf u
        rw [hp] at h2
        exact mem_progSuffixes_tail h2
      · simp only [updProg, if_neg hu]
        exact hwf u
    · intro u hneed
      by_cases hu : u = t
      · subst hu
        rfl
      · exfalso
        simp only [updProg, if_neg hu] at hneed
        have h2 := hlk u hneed
        rw [hm] at h2
        exact Option.noConfusion h2
  | beginStep t rest hp => exact lockInv_mid (by decide) hp hinv
  | endStep t rest hp => exact lockInv_mid (by decide) hp hinv
  | closeStep t rest hp => exact lockInv_mid (by decide) hp hinv
  | unlockStep t rest hp =>
    obtain ⟨hwf, hlk⟩ := hinv
    have hwf2 := hwf t
    rw [hp] at hwf2
    have hrest : rest = [] := unlock_head_suffix hwf2
    refine ⟨?_, ?_⟩
    · intro u
      by_cases hu : u = t
      · subst hu
        simp only [updProg, if_pos rfl]
        exact mem_progSuffixes_tail hwf2
      · simp only [updProg, if_neg hu]
        exact hwf u
    · intro u hneed
      exfalso
      by_cases hu : u = t
      · subst hu
        simp only [updProg, if_pos rfl, hrest] at hneed
        exact List.not_mem_nil _ hneed.1
      · simp only [updProg, if_neg hu] at hneed
        have h1 := hlk u hneed
        have h2 := hlk t (by
          rw [hp, hrest]
          exact ⟨List.mem_cons_self _ _, by decide⟩)
        rw [h1] at h2
        exact hu (Option.some.inj h2)

/-- The lock invariant holds initially. -/
lemma lockInv_init (ops : Nat → ClientOp) : LockInv (initState ops) := by
  refine ⟨?_, ?_⟩
  · intro t
    show clientProgram (ops t) ∈ progSuffixes
    cases hop : ops t <;> decide
  · intro t hneed
    exfalso
    have hmem : LockAction.lock ∈ (initState ops).progs t := by
      show LockAction.lock ∈ clientProgram (ops t)
      cases hop : ops t <;> decide
    exact hneed.2 hmem

/-- Every reachable state satisfies the lock invariant. -/
lemma reachable_lockInv (ops : Nat → ClientOp) {s : CState} (h : Reachable ops s) :
    LockInv s := by
  induction h with
  | refl => exact lockInv_init ops
  | tail _ hstep ih => exact lockInv_step hstep ih

/-- Claim C2: in every state reachable under concurrent invocation of
Eval, LoadFile and Shutdown, at most one request/response exchange is
in flight on the shared connection: any two threads whose exchange is
in flight are the same thread, because each operation holds the
exclusive lock for its full duration, including the blocking reads. -/
theorem exchanges_serialized (ops : Nat → ClientOp) (s : CState) (h : Reachable ops s)
    (t1 t2 : Nat) (h1 : InFlight s t1) (h2 : InFlight s t2) : t1 = t2 := by
  obtain ⟨hwf, hlk⟩ := reachable_lockInv ops h
  have m1 := hlk t1 (inFlight_needsLock (hwf t1) h1)
  have m2 := hlk t2 (inFlight_needsLock (hwf t2) h2)
  rw [m1] at m2
  exact Option.some.inj m2

/-- A concrete two-step run: thread 0 locks, then starts its exchange. -/
lemma stateW2_reachable : Reachable opsW stateW2 := by
  have s1 : CStep (initState opsW) stateW1 :=
    CStep.lockStep (initState opsW) 0
      [LockAction.beginExch, LockAction.endExch, LockAction.unlock] rfl rfl
  have s2 : CStep stateW1 stateW2 :=
    CStep.beginStep stateW1 0 [LockAction.endExch, LockAction.unlock] rfl
  exact Relation.ReflTransGen.tail (Relation.ReflTransGen.tail Relation.ReflTransGen.refl s1) s2

/-- Witness for C2 at a concrete reachable state with an in-flight
exchange of thread 0. -/
theorem exchanges_serialized_witness :
    Reachable opsW stateW2 ∧ InFlight stateW2 0 ∧ (0 : Nat) = 0 :=
  ⟨stateW2_reachable, ⟨[LockAction.unlock], rfl⟩,
    exchanges_serialized opsW stateW2 stateW2_reachable 0 0
      ⟨[LockAction.unlock], rfl⟩ ⟨[LockAction.unlock], rfl⟩⟩

end ReplBot
